import Mathlib

/-!
Verification of the logo-resolution engine of the `logoscrape` repository
(`logo_scraper_advanced.py`, `logo_scraper_basic.py`) against its
natural-language specification.

The Python sources are shallowly embedded: pure helpers become Lean
functions; the network, the HTML parser, the image decoder and the
random-suffix generator become an explicit environment of oracles; Python
exceptions become `Except` values.  Requests issued and files written are
made observable by threading explicit logs through the resolver.
-/

namespace LogoScrape

/-! ## String utilities (models of the Python string operations used) -/

/-- Model of Python `str.lower()` (ASCII case folding, which is all the
sources rely on). -/
def strLower (s : String) : String := ⟨s.toList.map Char.toLower⟩

/-- Model of Python `' '.join(xs)`. -/
def joinSpace (xs : List String) : String := String.intercalate " " xs

/-- `charsLeadMatch pat cs` is true when `pat` is an initial segment of
`cs`; it models Python `str.startswith` after `toList`. -/
def charsLeadMatch : List Char → List Char → Bool
  | [], _ => true
  | _ :: _, [] => false
  | p :: ps, c :: cs => p == c && charsLeadMatch ps cs

/-- `charsHasSub needle hay` is true when `needle` occurs contiguously in
`hay`; it models the Python substring test `needle in hay`. -/
def charsHasSub (needle : List Char) : List Char → Bool
  | [] => charsLeadMatch needle []
  | c :: cs => charsLeadMatch needle (c :: cs) || charsHasSub needle cs

/-- Model of Python `needle in hay` on strings. -/
def strContainsStr (hay needle : String) : Bool :=
  charsHasSub needle.toList hay.toList

/-- Model of Python `s.startswith(pat)`. -/
def strStartsWith (s pat : String) : Bool :=
  charsLeadMatch pat.toList s.toList

/-- Model of Python `s.endswith(pat)`. -/
def strEndsWith (s pat : String) : Bool :=
  charsLeadMatch pat.toList.reverse s.toList.reverse

/-- Model of Python `s.strip()`: remove leading and trailing whitespace. -/
def strStrip (s : String) : String :=
  ⟨((s.toList.dropWhile Char.isWhitespace).reverse.dropWhile
      Char.isWhitespace).reverse⟩

/-- Model of Python `s.rstrip('/')`: remove all trailing slashes. -/
def rstripSlashes (s : String) : String :=
  ⟨(s.toList.reverse.dropWhile (fun c => c == '/')).reverse⟩

/-- Model of Python `os.path.basename` (posix): the part of the path after
the last `'/'`. -/
def pyBasename (s : String) : String :=
  ⟨(s.toList.reverse.takeWhile (fun c => !(c == '/'))).reverse⟩

/-- Model of Python `s.replace('.', '_')`. -/
def dotsToUnderscores (s : String) : String :=
  ⟨s.toList.map (fun c => if c == '.' then '_' else c)⟩

/-- Modelled from the spec: `urllib.parse.urljoin`, which resolves a
reference against the page base URL ("Each extracted reference is resolved
to an absolute locator relative to the fetched page's base URL").  The
library function is not repository code; no claim depends on its exact
output, only on which reference is joined, so absolute references are kept
and all others are appended to the base. -/
def urljoin (base ref : String) : String :=
  if strStartsWith ref "http://" || strStartsWith ref "https://" then ref
  else base ++ "/" ++ ref

/-- Model of `urllib.parse.urlparse(url).netloc`: the host component
between the first `"://"` and the following `'/'`. -/
def netlocChars : List Char → List Char
  | [] => []
  | c :: cs =>
    if charsLeadMatch [':', '/', '/'] (c :: cs) then
      (cs.drop 2).takeWhile (fun d => !(d == '/'))
    else netlocChars cs

/-- Model of `urlparse(url).netloc`. -/
def urlNetloc (u : String) : String := ⟨netlocChars u.toList⟩

/-! ## Data model

A candidate is the Python tuple `(url, score)` for remote assets, or
`(svg_markup, score, 'inline_svg')` for inline SVG markup. -/

/-- One nominated logo location, as produced by the discovery strategies
of `LogoScraper` (`logo_scraper_advanced.py`). -/
inductive Candidate where
  | remote (locator : String) (score : Int)
  | inlineSvg (markup : String) (score : Int)
deriving DecidableEq

/-- The score component (`candidate[1]` in the source). -/
def Candidate.score : Candidate → Int
  | .remote _ s => s
  | .inlineSvg _ s => s

/-! ## Parsed-document model

`BeautifulSoup(response.text, 'html.parser')` is modelled as the lists of
elements the four discovery strategies iterate over.  Attribute access
`el.get(attr, default)` is modelled with `Option`; bs4 returns the
multi-valued `rel`/`class` attributes as lists of strings. -/

/-- A `<link>` element as seen by `_find_favicon_links`. -/
structure LinkEl where
  rel : List String
  href : Option String
deriving DecidableEq

/-- An `<img>` element as seen by `_find_logo_in_img_attributes` and
`_find_header_logos`.  `raw` is the serialization `str(img)` used by the
header-logo scoring. -/
structure ImgEl where
  src : Option String
  classAttr : Option (List String)
  idAttr : Option String
  altAttr : Option String
  titleAttr : Option String
  nameAttr : Option String
  raw : String
deriving DecidableEq

/-- An inline `<svg>` element as seen by `_find_svg_logos`:
`titleText` is `svg.find('title').text` when a `<title>` child exists,
`markup` is `str(svg)`. -/
structure SvgEl where
  titleText : Option String
  markup : String
deriving DecidableEq

/-- An `img`/`object`/`embed` element as seen by the external-SVG scan of
`_find_svg_logos` (`link.get('src') or link.get('data')`). -/
structure EmbedEl where
  src : Option String
  dataAttr : Option String
deriving DecidableEq

/-- A `header`/`nav`/`div` container as seen by `_find_header_logos`.
`classStr` is the class-attribute value the `class_` lambda inspects
(already rendered to the string `str(c)` it is matched against); `none`
models a tag whose class attribute is absent (`c` falsy). -/
structure HeaderEl where
  classStr : Option String
  imgs : List ImgEl
deriving DecidableEq

/-- The parsed document: the element lists each `soup.find_all` call of
the four strategies iterates over, in document order. -/
structure Doc where
  links : List LinkEl
  imgs : List ImgEl
  svgs : List SvgEl
  embeds : List EmbedEl
  headers : List HeaderEl
deriving DecidableEq

/-! ## Strategy 1: `_find_favicon_links` -/

/-- `' '.join(rel).lower()` for a link's `rel` attribute. -/
def relString (l : LinkEl) : String := strLower (joinSpace l.rel)

/-- The candidates one `<link>` element contributes in
`_find_favicon_links`: score 5 when the rel contains any icon token, and
the (unreachable, see `c3`) score-8 branch for precomposed touch icons. -/
def faviconOf (baseUrl : String) (l : LinkEl) : List Candidate :=
  let rel := relString l
  match l.href with
  | none => []
  | some h =>
    if h = "" then []
    else if ["icon", "shortcut icon", "apple-touch-icon",
        "apple-touch-icon-precomposed"].any (fun x => strContainsStr rel x) then
      [.remote (urljoin baseUrl h) 5]
    else if strContainsStr rel "apple-touch-icon" &&
        strContainsStr rel "precomposed" then
      [.remote (urljoin baseUrl h) 8]
    else []

/-- `LogoScraper._find_favicon_links`. -/
def findFaviconLinks (links : List LinkEl) (baseUrl : String) : List Candidate :=
  links.flatMap (faviconOf baseUrl)

/-! ## Strategy 2: `_find_logo_in_img_attributes` -/

/-- The string the attribute loop scores for one of
`'class','id','alt','title','name'`: a missing attribute contributes `''`;
a list value is joined with spaces (and, faithfully to the source, *not*
lowercased); a string value is lowercased. -/
def classValue (i : ImgEl) : String :=
  match i.classAttr with
  | none => ""
  | some l => joinSpace l

/-- The scored value of a string-valued attribute (`str(value).lower()`),
with `''` for a missing attribute. -/
def strAttrValue : Option String → String
  | none => ""
  | some s => strLower s

/-- Score contributed by one attribute value: +3 for "logo", +2 for
"brand", +1 for "header". -/
def tokenScore (v : String) : Int :=
  (if strContainsStr v "logo" then 3 else 0) +
  (if strContainsStr v "brand" then 2 else 0) +
  (if strContainsStr v "header" then 1 else 0)

/-- The attribute-loop score of an `<img>` element over
`class, id, alt, title, name`. -/
def imgAttrsScore (i : ImgEl) : Int :=
  tokenScore (classValue i) + tokenScore (strAttrValue i.idAttr) +
  tokenScore (strAttrValue i.altAttr) + tokenScore (strAttrValue i.titleAttr) +
  tokenScore (strAttrValue i.nameAttr)

/-- The candidates one `<img>` element contributes in
`_find_logo_in_img_attributes`: attribute score plus +3 when the filename
contains "logo", emitted only when the total is positive and a source
reference exists. -/
def imgCandOf (baseUrl : String) (i : ImgEl) : List Candidate :=
  match i.src with
  | none => []
  | some s =>
    if s = "" then []
    else
      let score := imgAttrsScore i +
        (if strContainsStr (strLower (pyBasename s)) "logo" then 3 else 0)
      if score > 0 then [.remote (urljoin baseUrl s) score] else []

/-- `LogoScraper._find_logo_in_img_attributes`. -/
def findLogoInImgAttributes (imgs : List ImgEl) (baseUrl : String) :
    List Candidate :=
  imgs.flatMap (imgCandOf baseUrl)

/-! ## Strategy 3: `_find_svg_logos` -/

/-- The candidate one inline `<svg>` element contributes: its markup at
score 7 when its title text contains "logo" or "brand". -/
def svgInlineOf (s : SvgEl) : List Candidate :=
  match s.titleText with
  | none => []
  | some t =>
    if strContainsStr (strLower t) "logo" ||
        strContainsStr (strLower t) "brand" then
      [.inlineSvg s.markup 7]
    else []

/-- Python `a or b` on the two optional reference attributes: the first
truthy (non-empty) value, else the second operand as-is. -/
def embedSrcOf (e : EmbedEl) : Option String :=
  match e.src with
  | some s => if s = "" then e.dataAttr else some s
  | none => e.dataAttr

/-- The candidate one `img`/`object`/`embed` element contributes: its
reference at score 6 when it ends in `.svg`. -/
def svgExternalOf (baseUrl : String) (e : EmbedEl) : List Candidate :=
  match embedSrcOf e with
  | none => []
  | some s =>
    if s = "" then []
    else if strEndsWith (strLower s) ".svg" then
      [.remote (urljoin baseUrl s) 6]
    else []

/-- `LogoScraper._find_svg_logos`: inline SVG candidates followed by
external `.svg` references. -/
def findSvgLogos (svgs : List SvgEl) (embeds : List EmbedEl)
    (baseUrl : String) : List Candidate :=
  svgs.flatMap svgInlineOf ++ embeds.flatMap (svgExternalOf baseUrl)

/-! ## Strategy 4: `_find_header_logos` -/

/-- The `class_` lambda of `_find_header_logos`:
`c and any(x in str(c).lower() for x in ['header','nav','top','logo','brand'])`. -/
def headerClassMatches (h : HeaderEl) : Bool :=
  match h.classStr with
  | none => false
  | some c =>
    !(c = "") && ["header", "nav", "top", "logo", "brand"].any
      (fun x => strContainsStr (strLower c) x)

/-- The candidate one header image contributes: base score 4, +2 when the
serialized element mentions "logo" or "brand". -/
def headerImgCandOf (baseUrl : String) (i : ImgEl) : List Candidate :=
  match i.src with
  | none => []
  | some s =>
    if s = "" then []
    else
      let score : Int := 4 +
        (if ["logo", "brand"].any
            (fun x => strContainsStr (strLower i.raw) x) then 2 else 0)
      [.remote (urljoin baseUrl s) score]

/-- `LogoScraper._find_header_logos`. -/
def findHeaderLogos (headers : List HeaderEl) (baseUrl : String) :
    List Candidate :=
  (headers.filter headerClassMatches).flatMap
    (fun h => h.imgs.flatMap (headerImgCandOf baseUrl))

/-- The merged discovery output, in the strategy order of
`LogoScraper.get_logo` (favicon links, then image attributes, then SVG,
then header logos). -/
def discoverCandidates (doc : Doc) (baseUrl : String) : List Candidate :=
  findFaviconLinks doc.links baseUrl ++
  findLogoInImgAttributes doc.imgs baseUrl ++
  findSvgLogos doc.svgs doc.embeds baseUrl ++
  findHeaderLogos doc.headers baseUrl

/-! ## Candidate ranking

`candidates.sort(key=lambda x: x[1], reverse=True)` is CPython's stable
sort by score, descending: equal-score elements keep their original
relative order.  It is embedded as a stable insertion sort, which is the
unique permutation that is score-descending and preserves the relative
order of equal scores; the characterizing theorems are proved below. -/

/-- Stable descending insertion: `c` is placed before the first element
whose score is not larger than `c`'s. -/
def insertCand (c : Candidate) : List Candidate → List Candidate
  | [] => [c]
  | d :: ds => if d.score ≤ c.score then c :: d :: ds else d :: insertCand c ds

/-- Model of `candidates.sort(key=lambda x: x[1], reverse=True)`. -/
def sortCandidatesDesc (cs : List Candidate) : List Candidate :=
  cs.foldr insertCand []

/-! ## Image, environment and exception model -/

/-- Raw HTTP body bytes (abstract). -/
abbrev ByteData := List Nat

/-- An RGBA pixel; `a = 255` is fully opaque, `a = 0` fully transparent. -/
structure Pix where
  r : Nat
  g : Nat
  b : Nat
  a : Nat
deriving DecidableEq

/-- A decoded PIL image: dimensions, `img.format`, and pixel data. -/
structure PImage where
  width : Nat
  height : Nat
  format : Option String
  pixels : List Pix
deriving DecidableEq

/-- A raised Python exception: `requests.exceptions.RequestException`
versus any other `Exception`. -/
inductive PyExc where
  | request (msg : String)
  | other (msg : String)
deriving DecidableEq

/-- The effectful world of one scraper: page fetch+parse, asset fetch
(`requests.get` plus `raise_for_status`), image decoding (`Image.open`),
and the `uuid.uuid4().hex[:8]` suffix used in generated filenames. -/
structure Env where
  fetchPage : String → Except PyExc Doc
  fetchAsset : String → Except PyExc ByteData
  decode : ByteData → Except PyExc PImage
  freshHex : String

/-! ## Normalizer / persister -/

/-- The target extension chosen for a validated image:
`img.format.lower() if img.format else 'png'`. -/
def extFor (img : PImage) : String :=
  match img.format with
  | some f => strLower f
  | none => "png"

/-- The bytes `img.save(filepath)` writes, as decoded content: PIL
re-encodes in the format named by the file extension (here always the
source format, or PNG) and performs no mode conversion, so the pixel data
is stored unchanged. -/
structure SavedImage where
  ext : String
  pixels : List Pix
deriving DecidableEq

/-- Model of `img.save(filepath)` for the formats this pipeline produces. -/
def saveImage (img : PImage) : SavedImage :=
  { ext := extFor img, pixels := img.pixels }

/-- A file written by the resolver: inline SVG markup written as text, or
an image written via `img.save`. -/
inductive StoredFile where
  | svg (markup : String)
  | image (saved : SavedImage)
deriving DecidableEq

/-- `f"{domain.replace('.', '_')}_{uuid.uuid4().hex[:8]}.{ext}"`. -/
def candFilename (domain uuid ext : String) : String :=
  dotsToUnderscores domain ++ "_" ++ uuid ++ "." ++ ext

/-- `os.path.join(self.output_dir, filename)` (posix). -/
def filePathIn (dir name : String) : String := dir ++ "/" ++ name

/-! ## Asset resolver (`_process_logo_candidates`) -/

/-- One iteration of the candidate loop, with its observable effects: on
success the written `(filepath, content)` pair, plus the list of asset
URLs for which an HTTP request was issued.  Inline SVG is written
directly (no fetch, no decode, no dimension check); a remote asset is
fetched, decoded, rejected when either dimension is below 16, and saved
otherwise.  Any failure yields `none` (the `except: continue`). -/
def tryCandidate (env : Env) (dir domain : String) (c : Candidate) :
    Option (String × StoredFile) × List String :=
  match c with
  | .inlineSvg markup _ =>
    (some (filePathIn dir (candFilename domain env.freshHex "svg"),
      .svg markup), [])
  | .remote url _ =>
    match env.fetchAsset url with
    | .error _ => (none, [url])
    | .ok bytes =>
      match env.decode bytes with
      | .error _ => (none, [url])
      | .ok img =>
        if img.width < 16 || img.height < 16 then (none, [url])
        else
          (some (filePathIn dir (candFilename domain env.freshHex (extFor img)),
            .image (saveImage img)), [url])

/-- The resolver's observable effects: asset URLs requested and files
written, in order. -/
structure ResolveLog where
  fetched : List String
  written : List (String × StoredFile)
deriving DecidableEq

/-- The candidate loop of `_process_logo_candidates`: first candidate to
pass wins and the loop returns `(filepath, "Success")`; exhaustion yields
`(None, "No valid logo found among candidates")`. -/
def resolveList (env : Env) (dir domain : String) :
    List Candidate → (Option String × String) × ResolveLog
  | [] => ((none, "No valid logo found among candidates"), ⟨[], []⟩)
  | c :: rest =>
    match tryCandidate env dir domain c with
    | (some (fp, sf), fs) => ((some fp, "Success"), ⟨fs, [(fp, sf)]⟩)
    | (none, fs) =>
      let r := resolveList env dir domain rest
      (r.1, ⟨fs ++ r.2.fetched, r.2.written⟩)

/-- `LogoScraper._process_logo_candidates`: empty merged list is reported
as `(None, "No logo candidates found")` before sorting; otherwise the
ranked list is tried in order. -/
def processLogoCandidates (env : Env) (dir : String) (cs : List Candidate)
    (domain : String) : (Option String × String) × ResolveLog :=
  if cs.isEmpty then ((none, "No logo candidates found"), ⟨[], []⟩)
  else resolveList env dir domain (sortCandidatesDesc cs)

/-- The asset URLs requested while attempting a list of candidates in
order (none of them passing is not assumed; used to describe prefixes of
the loop). -/
def candFetches (env : Env) (dir domain : String) :
    List Candidate → List String
  | [] => []
  | c :: rest =>
    (tryCandidate env dir domain c).2 ++ candFetches env dir domain rest

/-! ## Single-URL pipeline (`get_logo`) -/

/-- A Python value passed as the `url` argument: a string, or any
non-string value (rejected by the `isinstance` check). -/
inductive PyVal where
  | str (s : String)
  | nonStr
deriving DecidableEq

/-- `LogoScraper._prepare_url`: `None` for non-strings, the empty string
and whitespace-only strings; otherwise the stripped input with `https://`
prepended when no `http://`/`https://` scheme is present, and trailing
slashes removed. -/
def prepareUrl : PyVal → Option String
  | .nonStr => none
  | .str url =>
    if url = "" then none
    else
      let url := strStrip url
      if url = "" then none
      else
        let url :=
          if strStartsWith url "http://" || strStartsWith url "https://" then url
          else "https://" ++ url
        some (rstripSlashes url)

/-- `LogoScraper.get_logo`: result pair, page requests issued, and the
resolver's effect log.  Every exception raised inside the `try` block is
converted to a `(None, message)` pair; invalid URLs are rejected before
any request. -/
def getLogo (env : Env) (dir : String) (v : PyVal) :
    (Option String × String) × List String × ResolveLog :=
  match prepareUrl v with
  | none => ((none, "Invalid URL"), [], ⟨[], []⟩)
  | some url =>
    match env.fetchPage url with
    | .error (.request m) => ((none, "Request error: " ++ m), [url], ⟨[], []⟩)
    | .error (.other m) => ((none, "Unexpected error: " ++ m), [url], ⟨[], []⟩)
    | .ok doc =>
      let domain := urlNetloc url
      let r := processLogoCandidates env dir (discoverCandidates doc url) domain
      (r.1, [url], r.2)

/-- `process_url_batch`: the sequential loop appending
`(url, logo_path, message)` for every URL of the batch. -/
def processUrlBatch (env : Env) (dir : String) :
    List PyVal → List (PyVal × Option String × String)
  | [] => []
  | u :: rest =>
    ((u, ((getLogo env dir u).1.1, (getLogo env dir u).1.2))) ::
      processUrlBatch env dir rest

/-! ## Basic scraper (`logo_scraper_basic.py`, `get_site_logo`) -/

/-- The world of the basic scraper's candidate loop. -/
structure BasicEnv where
  fetchAsset : String → Except PyExc ByteData
  decode : ByteData → Except PyExc PImage
  freshHex : String

/-- One iteration of the candidate loop of `get_site_logo` (lines
79-106): fetch, decode, save under `logos/<domain>_<uuid>.<ext>`; any
failure yields `None` (the `except: continue`). -/
def basicAttempt (env : BasicEnv) (pageUrl : String) (candidate : String) :
    Option String :=
  match env.fetchAsset (urljoin pageUrl candidate) with
  | .error _ => none
  | .ok bytes =>
    match env.decode bytes with
    | .error _ => none
    | .ok img =>
      some (filePathIn "logos"
        (candFilename (urlNetloc pageUrl) env.freshHex (extFor img)))

/-- The candidate loop of `get_site_logo`: the first candidate that
downloads and decodes is saved and its path returned; an empty candidate
list and an exhausted candidate list both return `None`. -/
def basicProcessCandidates (env : BasicEnv) (pageUrl : String) :
    List String → Option String
  | [] => none
  | c :: rest =>
    match basicAttempt env pageUrl c with
    | some p => some p
    | none => basicProcessCandidates env pageUrl rest

/-! ## Batch report collection (`main` of `logo_scraper_advanced.py`)

`result_dict = {url: (logo_path, message) for url, logo_path, message in
results}` is a Python dict comprehension: a later binding for the same
URL overwrites the earlier one.  The subsequent row loop writes
`result_dict[url]` into each row whose URL is a dict key, and leaves the
row's `logo_path`/`status` as `None` otherwise. -/

/-- The per-URL result pair `(logo_path, message)`. -/
abbrev UrlResult := Option String × String

/-- Last-wins lookup in the dict built from `results`, threading the
current binding for the key through the comprehension's iteration. -/
def resultDictAux (k : String) (acc : Option UrlResult) :
    List (String × UrlResult) → Option UrlResult
  | [] => acc
  | p :: rest => resultDictAux k (if p.1 == k then some p.2 else acc) rest

/-- `result_dict[url]` (with `None` for a missing key), for the dict
comprehension over `results`. -/
def resultDict (results : List (String × UrlResult)) (k : String) :
    Option UrlResult :=
  resultDictAux k none results

/-- The final per-row report: for every input row URL, the
`(logo_path, status)` pair assigned to that row (`none` when the URL is
not a key of `result_dict`, leaving the row's columns as `None`). -/
def finalReport (rows : List String) (results : List (String × UrlResult)) :
    List (String × Option UrlResult) :=
  rows.map (fun u => (u, resultDict results u))

/-- The property the claim asserts of the collection point: every input
occurrence's own result reaches its row ("no result may be lost or
overwritten"). -/
def reportKeepsEachResult (rows : List String)
    (results : List (String × UrlResult)) : Prop :=
  finalReport rows results = results.map (fun r => (r.1, some r.2))

/-! ## Statement of the spec's URL normalization (claim C9)

Written from the spec's words, to be compared with `prepareUrl`:
"prepend `https://` if no scheme; strip trailing slash". -/

/-- The claim's normalization: prepend the scheme when absent, then strip
trailing slashes — with no whitespace handling. -/
def claimNormalize (s : String) : String :=
  rstripSlashes
    (if strStartsWith s "http://" || strStartsWith s "https://" then s
     else "https://" ++ s)

/-! ## Statement of the spec's alpha compositing (claim C6)

Written from the spec's words, to be compared with `saveImage`:
"composited onto an opaque (white) background". -/

/-- Alpha-compositing of one pixel over an opaque white background. -/
def whiteFlatten (p : Pix) : Pix :=
  { r := (p.r * p.a + 255 * (255 - p.a)) / 255,
    g := (p.g * p.a + 255 * (255 - p.a)) / 255,
    b := (p.b * p.a + 255 * (255 - p.a)) / 255,
    a := 255 }

/-! ## Properties of the stable descending sort -/

theorem insertCand_perm (c : Candidate) (l : List Candidate) :
    (insertCand c l).Perm (c :: l) := by
  induction l with
  | nil => simp [insertCand]
  | cons d ds ih =>
    by_cases h : d.score ≤ c.score
    · simp [insertCand, h]
    · simp only [insertCand, if_neg h]
      exact (ih.cons d).trans (List.Perm.swap c d ds)

theorem sortCandidatesDesc_perm (cs : List Candidate) :
    (sortCandidatesDesc cs).Perm cs := by
  induction cs with
  | nil => simp [sortCandidatesDesc]
  | cons x xs ih =>
    have hx : sortCandidatesDesc (x :: xs) = insertCand x (sortCandidatesDesc xs) := rfl
    rw [hx]
    exact (insertCand_perm x (sortCandidatesDesc xs)).trans (ih.cons x)

theorem insertCand_pairwise {c : Candidate} {l : List Candidate}
    (hl : l.Pairwise (fun a b => b.score ≤ a.score)) :
    (insertCand c l).Pairwise (fun a b => b.score ≤ a.score) := by
  induction l with
  | nil => simp [insertCand]
  | cons d ds ih =>
    rcases List.pairwise_cons.mp hl with ⟨hd, hds⟩
    by_cases h : d.score ≤ c.score
    · simp only [insertCand, if_pos h]
      refine List.pairwise_cons.mpr ⟨?_, hl⟩
      intro b hb
      rcases List.mem_cons.mp hb with rfl | hb
      · exact h
      · exact (hd b hb).trans h
    · simp only [insertCand, if_neg h]
      refine List.pairwise_cons.mpr ⟨?_, ih hds⟩
      intro b hb
      rcases List.mem_cons.mp ((insertCand_perm c ds).mem_iff.mp hb) with rfl | hb
      · exact le_of_not_le h
      · exact hd b hb

theorem sortCandidatesDesc_pairwise (cs : List Candidate) :
    (sortCandidatesDesc cs).Pairwise (fun a b => b.score ≤ a.score) := by
  induction cs with
  | nil => simp [sortCandidatesDesc]
  | cons x xs ih => exact insertCand_pairwise ih

theorem insertCand_filter (c : Candidate) (l : List Candidate) (s : Int) :
    (insertCand c l).filter (fun d => d.score == s) =
      if c.score = s then c :: l.filter (fun d => d.score == s)
      else l.filter (fun d => d.score == s) := by
  induction l with
  | nil =>
    simp only [insertCand, List.filter_cons, List.filter_nil]
    by_cases hc : c.score = s
    · simp [hc]
    · simp [hc]
  | cons d ds ih =>
    by_cases h : d.score ≤ c.score
    · simp only [insertCand, if_pos h, List.filter_cons]
      by_cases hc : c.score = s
      · simp [hc]
      · simp [hc]
    · have hlt : c.score < d.score := lt_of_not_ge h
      simp only [insertCand, if_neg h, List.filter_cons, ih]
      by_cases hc : c.score = s
      · have hd : ¬(d.score = s) := by omega
        simp [hc, hd]
      · simp [hc]

theorem sortCandidatesDesc_filter (cs : List Candidate) (s : Int) :
    (sortCandidatesDesc cs).filter (fun d => d.score == s) =
      cs.filter (fun d => d.score == s) := by
  induction cs with
  | nil => rfl
  | cons x xs ih =>
    have hx : sortCandidatesDesc (x :: xs) = insertCand x (sortCandidatesDesc xs) := rfl
    rw [hx, insertCand_filter]
    by_cases hc : x.score = s <;> simp [List.filter_cons, hc, ih]

/-- C5: Candidate ranking sorts the merged candidate list by score
descending with a stable tie-break: the ranked list is a permutation of
the discovery output, scores are non-increasing, candidates of any fixed
score keep their relative discovery order (strategy 1 before 2 before 3
before 4, since `discoverCandidates` concatenates the strategies in that
order), and — the embedding being a pure function of the parsed document —
repeated discovery-plus-ranking runs produce the identical list. -/
theorem c5_stable_deterministic_ranking (doc : Doc) (base : String) :
    (sortCandidatesDesc (discoverCandidates doc base)).Perm
      (discoverCandidates doc base) ∧
    (sortCandidatesDesc (discoverCandidates doc base)).Pairwise
      (fun a b => b.score ≤ a.score) ∧
    (∀ s : Int, (sortCandidatesDesc (discoverCandidates doc base)).filter
        (fun c => c.score == s) =
      (discoverCandidates doc base).filter (fun c => c.score == s)) ∧
    sortCandidatesDesc (discoverCandidates doc base) =
      sortCandidatesDesc (discoverCandidates doc base) :=
  ⟨sortCandidatesDesc_perm _, sortCandidatesDesc_pairwise _,
    fun s => sortCandidatesDesc_filter _ s, rfl⟩

/-! ## Properties of the asset resolver -/

theorem resolveList_msg (env : Env) (dir domain : String)
    (l : List Candidate) :
    (resolveList env dir domain l).1.2 = "Success" ∨
    (resolveList env dir domain l).1.2 =
      "No valid logo found among candidates" := by
  induction l with
  | nil => right; rfl
  | cons c rest ih =>
    rcases htc : tryCandidate env dir domain c with ⟨o, fs⟩
    cases o with
    | some p =>
      rcases p with ⟨fp, sf⟩
      left
      simp [resolveList, htc]
    | none =>
      have hres : resolveList env dir domain (c :: rest) =
          ((resolveList env dir domain rest).1,
           ⟨fs ++ (resolveList env dir domain rest).2.fetched,
            (resolveList env dir domain rest).2.written⟩) := by
        simp [resolveList, htc]
      rw [hres]
      exact ih

theorem resolveList_allFailed_iff (env : Env) (dir domain : String)
    (l : List Candidate) :
    (resolveList env dir domain l).1.2 =
        "No valid logo found among candidates" ↔
      ∀ c ∈ l, (tryCandidate env dir domain c).1 = none := by
  induction l with
  | nil => simp [resolveList]
  | cons c rest ih =>
    rcases htc : tryCandidate env dir domain c with ⟨o, fs⟩
    cases o with
    | some p =>
      rcases p with ⟨fp, sf⟩
      have hres : resolveList env dir domain (c :: rest) =
          ((some fp, "Success"), ⟨fs, [(fp, sf)]⟩) := by
        simp [resolveList, htc]
      rw [hres]
      constructor
      · intro h
        have h2 : ("Success" : String) =
            "No valid logo found among candidates" := h
        exact absurd h2 (by decide)
      · intro h
        have hc := h c (List.mem_cons_self c rest)
        rw [htc] at hc
        exact absurd hc (by simp)
    | none =>
      have hres : resolveList env dir domain (c :: rest) =
          ((resolveList env dir domain rest).1,
           ⟨fs ++ (resolveList env dir domain rest).2.fetched,
            (resolveList env dir domain rest).2.written⟩) := by
        simp [resolveList, htc]
      rw [hres]
      constructor
      · intro h c' hc'
        rcases List.mem_cons.mp hc' with rfl | hc'
        · rw [htc]
        · exact ih.mp h c' hc'
      · intro h
        exact ih.mpr (fun c' hc' => h c' (List.mem_cons_of_mem c hc'))

theorem candFetches_append (env : Env) (dir domain : String)
    (l1 l2 : List Candidate) :
    candFetches env dir domain (l1 ++ l2) =
      candFetches env dir domain l1 ++ candFetches env dir domain l2 := by
  induction l1 with
  | nil => rfl
  | cons c cs ih => simp [candFetches, ih]

theorem resolveList_append_failing (env : Env) (dir domain : String)
    (pre l : List Candidate)
    (hpre : ∀ c ∈ pre, (tryCandidate env dir domain c).1 = none) :
    resolveList env dir domain (pre ++ l) =
      ((resolveList env dir domain l).1,
       ⟨candFetches env dir domain pre ++
          (resolveList env dir domain l).2.fetched,
        (resolveList env dir domain l).2.written⟩) := by
  induction pre with
  | nil => simp [candFetches]
  | cons c cs ih =>
    have hc : (tryCandidate env dir domain c).1 = none :=
      hpre c (List.mem_cons_self c cs)
    rcases htc : tryCandidate env dir domain c with ⟨o, fs⟩
    rw [htc] at hc
    have ho : o = none := hc
    subst ho
    have hres : resolveList env dir domain (c :: (cs ++ l)) =
        ((resolveList env dir domain (cs ++ l)).1,
         ⟨fs ++ (resolveList env dir domain (cs ++ l)).2.fetched,
          (resolveList env dir domain (cs ++ l)).2.written⟩) := by
      simp [resolveList, htc]
    rw [List.cons_append, hres,
      ih (fun c' h' => hpre c' (List.mem_cons_of_mem c h'))]
    simp [candFetches, htc, List.append_assoc]

/-- C1: the first candidate (in ranked order) to pass fetch and
validation wins: whenever the ranked list splits as
`pre ++ w :: post` with every candidate of `pre` failing and `w`
passing, the resolver returns `w`'s artifact with status `"Success"`,
and the asset requests it issued are exactly those for `pre ++ [w]` — no
candidate ranked after the winner is fetched or attempted. -/
theorem c1_first_passing_candidate_wins (env : Env) (dir domain : String)
    (cs pre post : List Candidate) (w : Candidate)
    (hsplit : sortCandidatesDesc cs = pre ++ w :: post)
    (hpre : ∀ c ∈ pre, (tryCandidate env dir domain c).1 = none)
    (hw : ((tryCandidate env dir domain w).1).isSome) :
    ∃ fp sf, (tryCandidate env dir domain w).1 = some (fp, sf) ∧
      processLogoCandidates env dir cs domain =
        ((some fp, "Success"),
         ⟨candFetches env dir domain (pre ++ [w]), [(fp, sf)]⟩) := by
  have hne : cs ≠ [] := by
    intro h
    subst h
    have h0 : ([] : List Candidate) = pre ++ w :: post := hsplit
    simp at h0
  rcases htc : tryCandidate env dir domain w with ⟨o, fs⟩
  rw [htc] at hw
  obtain ⟨pr, hfp⟩ := Option.isSome_iff_exists.mp hw
  rcases pr with ⟨fp, sf⟩
  have ho : o = some (fp, sf) := hfp
  subst ho
  refine ⟨fp, sf, rfl, ?_⟩
  have hcs : cs.isEmpty = false := by
    cases cs with
    | nil => exact absurd rfl hne
    | cons a as => rfl
  have hresw : resolveList env dir domain (w :: post) =
      ((some fp, "Success"), ⟨fs, [(fp, sf)]⟩) := by
    simp [resolveList, htc]
  simp only [processLogoCandidates, hcs, Bool.false_eq_true, if_false]
  rw [hsplit, resolveList_append_failing env dir domain pre _ hpre, hresw]
  simp [candFetches_append, candFetches, htc]

/-- C7: a fetched remote candidate that decodes to an image with either
dimension strictly below 16 pixels is discarded and the resolver
continues with the remaining candidates; when both dimensions are at
least 16 the candidate is accepted and saved. -/
theorem c7_minimum_dimension (env : Env) (dir domain url : String)
    (s : Int) (rest : List Candidate) (bytes : ByteData) (img : PImage)
    (hf : env.fetchAsset url = .ok bytes)
    (hd : env.decode bytes = .ok img) :
    ((img.width < 16 ∨ img.height < 16) →
      resolveList env dir domain (.remote url s :: rest) =
        ((resolveList env dir domain rest).1,
         ⟨url :: (resolveList env dir domain rest).2.fetched,
          (resolveList env dir domain rest).2.written⟩)) ∧
    (16 ≤ img.width → 16 ≤ img.height →
      (tryCandidate env dir domain (.remote url s)).1 =
        some (filePathIn dir (candFilename domain env.freshHex (extFor img)),
          .image (saveImage img))) := by
  constructor
  · intro hsmall
    have hb : (img.width < 16 || img.height < 16) = true := by
      rcases hsmall with h | h <;> simp [h]
    have htc : tryCandidate env dir domain (.remote url s) = (none, [url]) := by
      simp [tryCandidate, hf, hd, hb]
    simp [resolveList, htc]
  · intro hwide hhigh
    have hb : (img.width < 16 || img.height < 16) = false := by
      simp
      omega
    simp [tryCandidate, hf, hd, hb]

/-- C6 (amended): the persister performs no format conversion and no
alpha compositing: a winning remote candidate's image is stored with its
pixel data unchanged, under its source encoding (`png` when the format is
unknown).  In particular a transparent pixel is stored still transparent
— never rendered as opaque black, but also never composited onto white. -/
theorem c6_amended (env : Env) (dir domain url : String) (s : Int)
    (rest : List Candidate) (bytes : ByteData) (img : PImage)
    (hf : env.fetchAsset url = .ok bytes)
    (hd : env.decode bytes = .ok img)
    (hwide : 16 ≤ img.width) (hhigh : 16 ≤ img.height) :
    resolveList env dir domain (.remote url s :: rest) =
      ((some (filePathIn dir (candFilename domain env.freshHex (extFor img))),
        "Success"),
       ⟨[url],
        [(filePathIn dir (candFilename domain env.freshHex (extFor img)),
          .image (saveImage img))]⟩) ∧
    (saveImage img).ext = extFor img ∧
    (saveImage img).pixels = img.pixels ∧
    (∀ p ∈ (saveImage img).pixels, p.a = 0 → p ≠ ⟨0, 0, 0, 255⟩) := by
  have hb : (img.width < 16 || img.height < 16) = false := by
    simp
    omega
  refine ⟨?_, rfl, rfl, ?_⟩
  · have htc : tryCandidate env dir domain (.remote url s) =
        (some (filePathIn dir (candFilename domain env.freshHex (extFor img)),
          .image (saveImage img)), [url]) := by
      simp [tryCandidate, hf, hd, hb]
    simp [resolveList, htc]
  · intro p _ h0 hcontra
    subst hcontra
    simp at h0

/-- C10: an inline-SVG candidate reached by the resolver is persisted
directly — its markup is written as the artifact and the resolution
succeeds — with no asset fetch, no image decoding and no
minimum-dimension validation (the environment, including its decoder and
every image dimension, is arbitrary and unused). -/
theorem c10_inline_svg_direct (env : Env) (dir domain markup : String)
    (s : Int) (rest : List Candidate) :
    resolveList env dir domain (.inlineSvg markup s :: rest) =
      ((some (filePathIn dir (candFilename domain env.freshHex "svg")),
        "Success"),
       ⟨[], [(filePathIn dir (candFilename domain env.freshHex "svg"),
         .svg markup)]⟩) := by
  simp [resolveList, tryCandidate]

/-! ## Claim C2: distinguishing empty discovery from exhausted candidates -/

/-- C2 (amended, advanced resolver): `_process_logo_candidates` reports
`"No logo candidates found"` exactly when the merged candidate list is
empty, and `"No valid logo found among candidates"` exactly when the list
is non-empty and every candidate fails fetch or validation; the two
diagnostics are distinct.  (The basic scraper does not make this
distinction — see the counterexample `c2_basic_outcomes_confused`.) -/
theorem c2_amended_advanced_outcomes (env : Env) (dir domain : String)
    (cs : List Candidate) :
    ((processLogoCandidates env dir cs domain).1.2 =
        "No logo candidates found" ↔ cs = []) ∧
    ((processLogoCandidates env dir cs domain).1.2 =
        "No valid logo found among candidates" ↔
      (cs ≠ [] ∧ ∀ c ∈ cs, (tryCandidate env dir domain c).1 = none)) ∧
    ("No logo candidates found" : String) ≠
      "No valid logo found among candidates" := by
  refine ⟨?_, ?_, by decide⟩
  · cases cs with
    | nil => simp [processLogoCandidates]
    | cons c rest =>
      have hcs : (c :: rest).isEmpty = false := rfl
      simp only [processLogoCandidates, hcs, Bool.false_eq_true, if_false]
      rcases resolveList_msg env dir domain
          (sortCandidatesDesc (c :: rest)) with h | h <;>
        simp [h]
  · cases cs with
    | nil =>
      simp only [processLogoCandidates, List.isEmpty_nil, if_true]
      constructor
      · intro h
        have h2 : ("No logo candidates found" : String) =
            "No valid logo found among candidates" := h
        exact absurd h2 (by decide)
      · intro h
        exact absurd rfl h.1
    | cons c rest =>
      have hcs : (c :: rest).isEmpty = false := rfl
      simp only [processLogoCandidates, hcs, Bool.false_eq_true, if_false]
      rw [resolveList_allFailed_iff]
      constructor
      · intro h
        refine ⟨by simp, fun c' hc' => ?_⟩
        exact h c' ((sortCandidatesDesc_perm (c :: rest)).mem_iff.mpr hc')
      · intro h c' hc'
        exact h.2 c' ((sortCandidatesDesc_perm (c :: rest)).mem_iff.mp hc')

/-- A basic-scraper world in which every asset request fails. -/
def basicFailEnv : BasicEnv :=
  { fetchAsset := fun _ => .error (.request "connection refused"),
    decode := fun _ => .error (.other "cannot identify image file"),
    freshHex := "0f0f0f0f" }

/-- C2 counterexample: in the basic scraper (`get_site_logo`), a
resolution whose merged candidate list is empty and a resolution whose
single candidate fails both return the same outcome `None` — the two
situations the claim requires to be distinguishable are confused. -/
theorem c2_basic_outcomes_confused :
    basicProcessCandidates basicFailEnv "https://ex.com" ["logo.png"] =
        none ∧
    basicProcessCandidates basicFailEnv "https://ex.com" [] = none ∧
    basicProcessCandidates basicFailEnv "https://ex.com" ["logo.png"] =
      basicProcessCandidates basicFailEnv "https://ex.com" [] := by
  refine ⟨rfl, rfl, rfl⟩

/-! ## Claim C3: precomposed touch icons do not outrank generic favicons -/

/-- A `<link rel="apple-touch-icon-precomposed">` element. -/
def linkPrecomposed : LinkEl :=
  { rel := ["apple-touch-icon-precomposed"], href := some "apple-icon.png" }

/-- A generic `<link rel="icon">` element. -/
def linkGenericIcon : LinkEl :=
  { rel := ["icon"], href := some "favicon.ico" }

/-- C3 (code bug): `_find_favicon_links` emits the precomposed
apple-touch-icon at score 5, the same score as the generic favicon — not
strictly higher.  The `'icon' in rel` test of the first branch already
matches every `apple-touch-icon(-precomposed)` relation (`'icon'` is a
substring), so the score-8 `elif` branch is unreachable and every link
candidate is emitted at score 5. -/
theorem c3_precomposed_equals_generic_favicon :
    findFaviconLinks [linkPrecomposed, linkGenericIcon] "https://ex.com" =
      [.remote "https://ex.com/apple-icon.png" 5,
       .remote "https://ex.com/favicon.ico" 5] ∧
    (Candidate.remote "https://ex.com/apple-icon.png" 5).score =
      (Candidate.remote "https://ex.com/favicon.ico" 5).score := by
  exact ⟨by decide, rfl⟩

/-! ## Claim C4: the final batch report -/

theorem resultDictAux_of_not_mem (k : String) (acc : Option UrlResult)
    (rs : List (String × UrlResult)) (h : k ∉ rs.map Prod.fst) :
    resultDictAux k acc rs = acc := by
  induction rs generalizing acc with
  | nil => rfl
  | cons p rest ih =>
    have hk : ¬(p.1 == k) = true := by
      simp only [List.map_cons, List.mem_cons] at h
      simp only [beq_iff_eq]
      intro he
      exact h (Or.inl he.symm)
    simp only [resultDictAux, if_neg hk]
    refine ih _ (fun hm => h ?_)
    simp only [List.map_cons, List.mem_cons]
    exact Or.inr hm

theorem resultDictAux_isSome_of_acc (k : String) (acc : Option UrlResult)
    (rs : List (String × UrlResult)) (h : acc.isSome) :
    (resultDictAux k acc rs).isSome := by
  induction rs generalizing acc with
  | nil => exact h
  | cons p rest ih =>
    simp only [resultDictAux]
    by_cases hp : (p.1 == k) = true
    · exact ih _ (by simp [hp])
    · exact ih _ (by simp [hp, h])

theorem resultDictAux_isSome_of_mem (k : String) (acc : Option UrlResult)
    (rs : List (String × UrlResult)) (h : k ∈ rs.map Prod.fst) :
    (resultDictAux k acc rs).isSome := by
  induction rs generalizing acc with
  | nil => simp at h
  | cons p rest ih =>
    simp only [resultDictAux]
    by_cases hp : (p.1 == k) = true
    · exact resultDictAux_isSome_of_acc k _ rest (by simp [hp])
    · refine ih _ ?_
      simp only [List.map_cons, List.mem_cons] at h
      rcases h with h | h
      · exact absurd (by simp [h]) hp
      · exact h

theorem resultDict_of_nodup (rs : List (String × UrlResult))
    (hnd : (rs.map Prod.fst).Nodup) (p : String × UrlResult) (hp : p ∈ rs) :
    resultDict rs p.1 = some p.2 := by
  induction rs with
  | nil => simp at hp
  | cons q rest ih =>
    simp only [List.map_cons, List.nodup_cons] at hnd
    rcases List.mem_cons.mp hp with rfl | hp
    · show resultDictAux p.1 (if p.1 == p.1 then some p.2 else none) rest =
        some p.2
      rw [if_pos (by simp)]
      exact resultDictAux_of_not_mem _ _ _ hnd.1
    · have hne : ¬(q.1 == p.1) = true := by
        simp only [beq_iff_eq]
        intro he
        exact hnd.1 (he ▸ List.mem_map_of_mem Prod.fst hp)
      show resultDictAux p.1 (if q.1 == p.1 then some q.2 else none) rest =
        some p.2
      rw [if_neg hne]
      exact ih hnd.2 hp

/-- C4 counterexample: with the same URL occurring twice in the input,
the dict comprehension `{url: (logo_path, message) for ...}` keeps only
the last occurrence's result (each successful resolution has its own
random-suffix artifact path), so the first occurrence's result never
reaches any report row — it is overwritten, refuting "no result is lost
or overwritten". -/
theorem c4_duplicate_url_result_overwritten :
    (([("dupe.com", (some "logos/dupe_com_11111111.png", "Success")),
       ("dupe.com", (some "logos/dupe_com_22222222.png", "Success"))]
        : List (String × UrlResult)).map Prod.fst =
      ["dupe.com", "dupe.com"]) ∧
    ¬ reportKeepsEachResult ["dupe.com", "dupe.com"]
        [("dupe.com", (some "logos/dupe_com_11111111.png", "Success")),
         ("dupe.com", (some "logos/dupe_com_22222222.png", "Success"))] ∧
    finalReport ["dupe.com", "dupe.com"]
        [("dupe.com", (some "logos/dupe_com_11111111.png", "Success")),
         ("dupe.com", (some "logos/dupe_com_22222222.png", "Success"))] =
      [("dupe.com", some (some "logos/dupe_com_22222222.png", "Success")),
       ("dupe.com", some (some "logos/dupe_com_22222222.png", "Success"))] := by
  refine ⟨rfl, ?_, by decide⟩
  simp only [reportKeepsEachResult]
  decide

/-- C4 (amended): the final report has exactly one entry per input row —
one per occurrence, none omitted, each carrying a status — but a row's
entry is the dict's last-written result for that URL string, so when the
same URL occurs more than once every occurrence receives the last
occurrence's result; per-occurrence results are guaranteed to survive
only when the input URLs are pairwise distinct. -/
theorem c4_amended_report (rows : List String)
    (results : List (String × UrlResult))
    (halign : results.map Prod.fst = rows) :
    (finalReport rows results).length = rows.length ∧
    (∀ e ∈ finalReport rows results, e.2.isSome) ∧
    (rows.Nodup →
      finalReport rows results = results.map (fun r => (r.1, some r.2))) := by
  refine ⟨by simp [finalReport], ?_, ?_⟩
  · intro e he
    rcases List.mem_map.mp he with ⟨u, hu, rfl⟩
    exact resultDictAux_isSome_of_mem u none results (halign ▸ hu)
  · intro hnd
    subst halign
    rw [finalReport, List.map_map]
    refine List.map_congr_left ?_
    intro r hr
    simp only [Function.comp]
    rw [resultDict_of_nodup results hnd r hr]

/-! ## Claim C8: no exception escapes the single-URL pipeline -/

theorem strAppend_ne_of_longer (a m b : String)
    (h : b.length < a.length) : a ++ m ≠ b := by
  intro heq
  have hl := congrArg String.length heq
  rw [String.length_append] at hl
  omega

theorem resolveList_success_iff (env : Env) (dir domain : String)
    (l : List Candidate) :
    (resolveList env dir domain l).1.1.isSome ↔
      (resolveList env dir domain l).1.2 = "Success" := by
  induction l with
  | nil =>
    constructor
    · intro h
      simp [resolveList] at h
    · intro h
      have h2 : ("No valid logo found among candidates" : String) =
        "Success" := h
      exact absurd h2 (by decide)
  | cons c rest ih =>
    rcases htc : tryCandidate env dir domain c with ⟨o, fs⟩
    cases o with
    | some p =>
      rcases p with ⟨fp, sf⟩
      have hres : resolveList env dir domain (c :: rest) =
          ((some fp, "Success"), ⟨fs, [(fp, sf)]⟩) := by
        simp [resolveList, htc]
      rw [hres]
      simp
    | none =>
      have hres : resolveList env dir domain (c :: rest) =
          ((resolveList env dir domain rest).1,
           ⟨fs ++ (resolveList env dir domain rest).2.fetched,
            (resolveList env dir domain rest).2.written⟩) := by
        simp [resolveList, htc]
      rw [hres]
      exact ih

theorem processLogoCandidates_success_iff (env : Env) (dir : String)
    (cs : List Candidate) (domain : String) :
    ((processLogoCandidates env dir cs domain).1.1.isSome ↔
      (processLogoCandidates env dir cs domain).1.2 = "Success") ∧
    (processLogoCandidates env dir cs domain).1.2 ≠ "" := by
  cases cs with
  | nil =>
    simp only [processLogoCandidates, List.isEmpty_nil, if_true]
    refine ⟨?_, by decide⟩
    constructor
    · intro h; simp at h
    · intro h
      have h2 : ("No logo candidates found" : String) = "Success" := h
      exact absurd h2 (by decide)
  | cons c rest =>
    have hcs : (c :: rest).isEmpty = false := rfl
    simp only [processLogoCandidates, hcs, Bool.false_eq_true, if_false]
    refine ⟨resolveList_success_iff env dir domain _, ?_⟩
    rcases resolveList_msg env dir domain
        (sortCandidatesDesc (c :: rest)) with h | h <;>
      rw [h] <;> decide

theorem getLogo_success_iff (env : Env) (dir : String) (v : PyVal) :
    ((getLogo env dir v).1.1.isSome ↔ (getLogo env dir v).1.2 = "Success") ∧
    (getLogo env dir v).1.2 ≠ "" := by
  rcases hp : prepareUrl v with _ | url
  · have hres : getLogo env dir v = ((none, "Invalid URL"), [], ⟨[], []⟩) := by
      simp [getLogo, hp]
    rw [hres]
    refine ⟨?_, by decide⟩
    constructor
    · intro h; simp at h
    · intro h
      have h2 : ("Invalid URL" : String) = "Success" := h
      exact absurd h2 (by decide)
  · rcases hf : env.fetchPage url with e | doc
    · cases e with
      | request m =>
        have hres : getLogo env dir v =
            ((none, "Request error: " ++ m), [url], ⟨[], []⟩) := by
          simp [getLogo, hp, hf]
        rw [hres]
        refine ⟨?_, strAppend_ne_of_longer "Request error: " m "" (by decide)⟩
        constructor
        · intro h; simp at h
        · intro h
          exact absurd h
            (strAppend_ne_of_longer "Request error: " m "Success" (by decide))
      | other m =>
        have hres : getLogo env dir v =
            ((none, "Unexpected error: " ++ m), [url], ⟨[], []⟩) := by
          simp [getLogo, hp, hf]
        rw [hres]
        refine ⟨?_, strAppend_ne_of_longer "Unexpected error: " m "" (by decide)⟩
        constructor
        · intro h; simp at h
        · intro h
          exact absurd h
            (strAppend_ne_of_longer "Unexpected error: " m "Success" (by decide))
    · have hres : getLogo env dir v =
          ((processLogoCandidates env dir (discoverCandidates doc url)
              (urlNetloc url)).1,
           [url],
           (processLogoCandidates env dir (discoverCandidates doc url)
              (urlNetloc url)).2) := by
        simp [getLogo, hp, hf]
      rw [hres]
      exact processLogoCandidates_success_iff env dir _ _

/-- C8: no failure escapes the single-URL pipeline, and a failure on one
URL cannot affect another: over every environment — including ones whose
page fetch, asset fetch or decoder always raise — `get_logo` is a total
function into result pairs, the batch loop maps it independently over
each URL (so entry `i` depends only on URL `i`), the artifact is present
exactly when the status is `"Success"`, and every non-success status
carries a non-empty diagnostic message. -/
theorem c8_failures_isolated_per_url (env : Env) (dir : String)
    (urls : List PyVal) :
    processUrlBatch env dir urls =
      urls.map (fun u =>
        (u, ((getLogo env dir u).1.1, (getLogo env dir u).1.2))) ∧
    (∀ v : PyVal,
      ((getLogo env dir v).1.1.isSome ↔
        (getLogo env dir v).1.2 = "Success") ∧
      (getLogo env dir v).1.2 ≠ "") := by
  constructor
  · induction urls with
    | nil => rfl
    | cons u rest ih => simp [processUrlBatch, ih]
  · intro v
    exact getLogo_success_iff env dir v

/-! ## Claim C9: URL validation and normalization -/

/-- C9 (amended): a non-string, empty, or whitespace-only input is
rejected as `"Invalid URL"` with no request issued; any other input is
requested at `claimNormalize` — the spec's normalization (prepend
`https://` when no scheme, strip trailing slashes) — applied to the input
*stripped of surrounding whitespace*. -/
theorem c9_amended_url_normalization (env : Env) (dir : String)
    (s : String) :
    (prepareUrl (.str s) = none ↔ strStrip s = "") ∧
    prepareUrl PyVal.nonStr = none ∧
    (strStrip s = "" →
      getLogo env dir (.str s) = ((none, "Invalid URL"), [], ⟨[], []⟩)) ∧
    (¬ strStrip s = "" →
      prepareUrl (.str s) = some (claimNormalize (strStrip s)) ∧
      (getLogo env dir (.str s)).2.1 = [claimNormalize (strStrip s)]) := by
  have hiff : prepareUrl (.str s) = none ↔ strStrip s = "" := by
    by_cases hs : s = ""
    · subst hs
      simp [prepareUrl, strStrip]
    · by_cases h2 : strStrip s = ""
      · simp [prepareUrl, hs, h2]
      · simp [prepareUrl, hs, h2]
  have hsome : ¬ strStrip s = "" →
      prepareUrl (.str s) = some (claimNormalize (strStrip s)) := by
    intro h2
    have hs : ¬ s = "" := by
      intro hs
      subst hs
      exact h2 rfl
    simp [prepareUrl, claimNormalize, hs, h2]
  refine ⟨hiff, rfl, ?_, ?_⟩
  · intro h2
    have hp : prepareUrl (.str s) = none := hiff.mpr h2
    simp [getLogo, hp]
  · intro h2
    refine ⟨hsome h2, ?_⟩
    have hp := hsome h2
    rcases hf : env.fetchPage (claimNormalize (strStrip s)) with e | doc
    · cases e with
      | request m => simp [getLogo, hp, hf]
      | other m => simp [getLogo, hp, hf]
    · simp [getLogo, hp, hf]

/-- An environment in which every network request fails; used to observe
the request log of `get_logo` on concrete inputs. -/
def c9FailEnv : Env :=
  { fetchPage := fun _ => .error (.request "connection refused"),
    fetchAsset := fun _ => .error (.request "connection refused"),
    decode := fun _ => .error (.other "cannot identify image file"),
    freshHex := "9c9c9c9c" }

/-- C9 counterexample: the page request for the non-empty input
`" example.com/"` is issued against `"https://example.com"` — the input
stripped of whitespace and then normalized — and not against the claim's
normalization of the raw input (`"https:// example.com"`); moreover the
non-empty, whitespace-only input `"   "` is rejected with no request at
all, although the claim reserves the no-request outcome for empty or
non-string input. -/
theorem c9_normalization_differs_on_whitespace :
    (getLogo c9FailEnv "logos" (.str " example.com/")).2.1 =
      ["https://example.com"] ∧
    claimNormalize " example.com/" = "https:// example.com" ∧
    (["https://example.com"] : List String) ≠
      [claimNormalize " example.com/"] ∧
    ("   " : String) ≠ "" ∧
    (getLogo c9FailEnv "logos" (.str "   ")).2.1 = [] := by
  refine ⟨by decide, by decide, by decide, by decide, by decide⟩

/-! ## Concrete instances: the spec's greedy-fallback scenario and the
remaining witnesses -/

/-- A world realizing the spec's greedy-fallback test: the score-5 asset
decodes to a 10×10 image (fails validation), the score-3 asset decodes to
a 120×60 image (passes), the score-1 asset is unreachable. -/
def c1Env : Env :=
  { fetchPage := fun _ => .error (.request "unused"),
    fetchAsset := fun u =>
      if u = "https://ex.com/big.png" then .ok [1]
      else if u = "https://ex.com/mid.png" then .ok [2]
      else .error (.request "connection refused"),
    decode := fun b =>
      if b = [1] then .ok ⟨10, 10, some "PNG", []⟩
      else if b = [2] then .ok ⟨120, 60, some "PNG", []⟩
      else .error (.other "cannot identify image file"),
    freshHex := "abcd1234" }

/-- The spec's three candidates with scores 5, 3, 1. -/
def c1Cands : List Candidate :=
  [.remote "https://ex.com/big.png" 5, .remote "https://ex.com/mid.png" 3,
   .remote "https://ex.com/small.png" 1]

theorem c1_witness :
    sortCandidatesDesc c1Cands =
      [Candidate.remote "https://ex.com/big.png" 5] ++
        Candidate.remote "https://ex.com/mid.png" 3 ::
          [Candidate.remote "https://ex.com/small.png" 1] ∧
    (∀ c ∈ [Candidate.remote "https://ex.com/big.png" 5],
      (tryCandidate c1Env "logos" "ex.com" c).1 = none) ∧
    ((tryCandidate c1Env "logos" "ex.com"
        (Candidate.remote "https://ex.com/mid.png" 3)).1).isSome ∧
    ∃ fp sf,
      (tryCandidate c1Env "logos" "ex.com"
          (Candidate.remote "https://ex.com/mid.png" 3)).1 = some (fp, sf) ∧
      processLogoCandidates c1Env "logos" c1Cands "ex.com" =
        ((some fp, "Success"),
         ⟨candFetches c1Env "logos" "ex.com"
            ([Candidate.remote "https://ex.com/big.png" 5] ++
              [Candidate.remote "https://ex.com/mid.png" 3]),
          [(fp, sf)]⟩) :=
  ⟨by decide, by decide, by decide,
    c1_first_passing_candidate_wins c1Env "logos" "ex.com" c1Cands
      [Candidate.remote "https://ex.com/big.png" 5]
      [Candidate.remote "https://ex.com/small.png" 1]
      (Candidate.remote "https://ex.com/mid.png" 3)
      (by decide) (by decide) (by decide)⟩

/-- Input rows and per-occurrence results with pairwise distinct URLs. -/
def c4Rows : List String := ["a.com", "b.com"]

/-- The per-occurrence results aligned with `c4Rows`. -/
def c4Results : List (String × UrlResult) :=
  [("a.com", (some "logos/a_com_1.png", "Success")),
   ("b.com", (none, "Invalid URL"))]

theorem c4_witness :
    c4Results.map Prod.fst = c4Rows ∧
    ((finalReport c4Rows c4Results).length = c4Rows.length ∧
     (∀ e ∈ finalReport c4Rows c4Results, e.2.isSome) ∧
     (c4Rows.Nodup →
       finalReport c4Rows c4Results =
         c4Results.map (fun r => (r.1, some r.2)))) :=
  ⟨by decide, c4_amended_report c4Rows c4Results (by decide)⟩

/-- A decoded image with an alpha channel: one fully transparent pixel
and one opaque pixel. -/
def transparentImage : PImage :=
  { width := 64, height := 64, format := some "PNG",
    pixels := [⟨10, 20, 30, 0⟩, ⟨200, 100, 50, 255⟩] }

/-- C6 counterexample: `transparentImage` has an alpha channel, yet the
persisted pixel data is the source data unchanged — not the
white-composited pixels the claim requires (its transparent pixel would
have to become opaque white `(255,255,255,255)`). -/
theorem c6_no_white_compositing :
    (∃ p ∈ transparentImage.pixels, ¬ p.a = 255) ∧
    (saveImage transparentImage).pixels ≠
      transparentImage.pixels.map whiteFlatten ∧
    (saveImage transparentImage).pixels = transparentImage.pixels := by
  exact ⟨by decide, by decide, rfl⟩

/-- A world whose only asset decodes to `transparentImage`. -/
def c6Env : Env :=
  { fetchPage := fun _ => .error (.request "unused"),
    fetchAsset := fun _ => .ok [7],
    decode := fun _ => .ok transparentImage,
    freshHex := "11223344" }

theorem c6_witness :
    c6Env.fetchAsset "https://ex.com/logo.png" = .ok [7] ∧
    c6Env.decode [7] = .ok transparentImage ∧
    16 ≤ transparentImage.width ∧
    16 ≤ transparentImage.height ∧
    (resolveList c6Env "logos" "ex.com"
        [Candidate.remote "https://ex.com/logo.png" 5] =
      ((some (filePathIn "logos"
          (candFilename "ex.com" "11223344" (extFor transparentImage))),
        "Success"),
       ⟨["https://ex.com/logo.png"],
        [(filePathIn "logos"
            (candFilename "ex.com" "11223344" (extFor transparentImage)),
          .image (saveImage transparentImage))]⟩) ∧
     (saveImage transparentImage).ext = extFor transparentImage ∧
     (saveImage transparentImage).pixels = transparentImage.pixels ∧
     (∀ p ∈ (saveImage transparentImage).pixels,
       p.a = 0 → p ≠ ⟨0, 0, 0, 255⟩)) :=
  ⟨rfl, rfl, by decide, by decide,
    c6_amended c6Env "logos" "ex.com" "https://ex.com/logo.png" 5 [] [7]
      transparentImage rfl rfl (by decide) (by decide)⟩

/-- A world with a 10×10 asset at one URL and a 16×16 asset elsewhere. -/
def c7Env : Env :=
  { fetchPage := fun _ => .error (.request "unused"),
    fetchAsset := fun u =>
      if u = "https://ex.com/tiny.png" then .ok [1] else .ok [2],
    decode := fun b =>
      if b = [1] then .ok ⟨10, 10, some "PNG", []⟩
      else .ok ⟨16, 16, some "JPEG", []⟩,
    freshHex := "00ff00ff" }

theorem c7_witness :
    c7Env.fetchAsset "https://ex.com/tiny.png" = .ok [1] ∧
    c7Env.decode [1] = .ok ⟨10, 10, some "PNG", []⟩ ∧
    resolveList c7Env "logos" "ex.com"
        [Candidate.remote "https://ex.com/tiny.png" 5] =
      ((resolveList c7Env "logos" "ex.com" []).1,
       ⟨"https://ex.com/tiny.png" ::
          (resolveList c7Env "logos" "ex.com" []).2.fetched,
        (resolveList c7Env "logos" "ex.com" []).2.written⟩) ∧
    c7Env.fetchAsset "https://ex.com/ok.jpg" = .ok [2] ∧
    c7Env.decode [2] = .ok ⟨16, 16, some "JPEG", []⟩ ∧
    (tryCandidate c7Env "logos" "ex.com"
        (Candidate.remote "https://ex.com/ok.jpg" 4)).1 =
      some (filePathIn "logos" (candFilename "ex.com" "00ff00ff"
          (extFor ⟨16, 16, some "JPEG", []⟩)),
        .image (saveImage ⟨16, 16, some "JPEG", []⟩)) :=
  ⟨rfl, rfl,
    (c7_minimum_dimension c7Env "logos" "ex.com" "https://ex.com/tiny.png" 5
      [] [1] ⟨10, 10, some "PNG", []⟩ rfl rfl).1
      (Or.inl (by decide)),
    rfl, rfl,
    (c7_minimum_dimension c7Env "logos" "ex.com" "https://ex.com/ok.jpg" 4
      [] [2] ⟨16, 16, some "JPEG", []⟩ rfl rfl).2
      (by decide) (by decide)⟩

theorem c9_witness :
    (strStrip "   " = "" ∧
      getLogo c9FailEnv "logos" (.str "   ") =
        ((none, "Invalid URL"), [], ⟨[], []⟩)) ∧
    (¬ strStrip " example.com/" = "" ∧
      prepareUrl (.str " example.com/") =
        some (claimNormalize (strStrip " example.com/")) ∧
      (getLogo c9FailEnv "logos" (.str " example.com/")).2.1 =
        [claimNormalize (strStrip " example.com/")]) :=
  ⟨⟨by decide,
    (c9_amended_url_normalization c9FailEnv "logos" "   ").2.2.1 (by decide)⟩,
   ⟨by decide,
    (c9_amended_url_normalization c9FailEnv "logos" " example.com/").2.2.2
      (by decide)⟩⟩

end LogoScrape
